import Mathlib

/-!
Shallow embedding of the batching / token-optimization pipeline of the
Shopify translation tool (`js/translation-service.js`, `js/shopify-api.js`,
and the page-level orchestration script).

JavaScript values are modelled as follows:
* strings are Lean `String`s; JS string truthiness (`if (s)`) is `!s.isEmpty`,
  a possibly-absent string (`null`/`undefined`) is `Option String`;
* JS numbers that can only hold non-negative integers are `Nat`; numbers that
  can be negative are `Int`; a JS number that may be `NaN` is `Option Int`
  (`none` = `NaN`);
* the DOM (HTML parsing / serialization) is modelled by an explicit node tree
  `HtmlNode`; the browser's `innerHTML` parse is the out-of-scope collaborator
  turning a markup string into such a tree;
* `async` functions that can `throw` return `Except String _`; functions whose
  `try`/`catch` swallows every exception are total.
-/

/-- Core of `jsSplit`: scans the character list left to right; at each
position where the (non-empty) separator occurs, closes the current piece and
skips the separator, exactly like `String.prototype.split` with a string
separator.  The fuel is an upper bound on the scan length; `jsSplit` passes
the character count, which always suffices. -/
def splitGo (sep : List Char) : Nat → List Char → List (List Char)
  | _, [] => [[]]
  | 0, l => [l]
  | fuel + 1, c :: cs =>
      if sep.isPrefixOf (c :: cs) then
        [] :: splitGo sep fuel (List.drop (sep.length - 1) cs)
      else
        match splitGo sep fuel cs with
        | [] => [[c]]
        | p :: ps => (c :: p) :: ps

/-- Executable model of JavaScript `s.split(sep)` for a non-empty string
separator (the source only splits on `"|||"` and `"/"`). -/
def jsSplit (s sep : String) : List String :=
  (splitGo sep.toList s.toList.length s.toList).map (fun cs => String.mk cs)

/-- Executable model of JavaScript `s.trim()`: drops leading and trailing
whitespace. -/
def jsTrim (s : String) : String :=
  String.mk (((s.toList.dropWhile Char.isWhitespace).reverse.dropWhile
    Char.isWhitespace).reverse)

/-- Accumulator pass of `jsNumber`: decimal digits only. -/
def parseNatGo : List Char → Nat → Option Nat
  | [], acc => some acc
  | c :: cs, acc => if c.isDigit then parseNatGo cs (acc * 10 + (c.toNat - 48)) else none

/-- Executable model of JavaScript `Number(s)` on the integer-formatted
strings the source feeds it (rate-limit header halves): whitespace is
trimmed, the empty string converts to `0`, an optionally signed run of
decimal digits converts to that integer, and anything else is `NaN`
(`none`).  Float, hex and exponent forms never occur here and are modelled
as `NaN`. -/
def jsNumber (s : String) : Option Int :=
  match (jsTrim s).toList with
  | [] => some 0
  | '-' :: rest => if rest = [] then none else (parseNatGo rest 0).map (fun n => -(n : Int))
  | '+' :: rest => if rest = [] then none else (parseNatGo rest 0).map (fun n => (n : Int))
  | cs => (parseNatGo cs 0).map (fun n => (n : Int))

/-- One unit of translatable text, as produced by
`TranslationService.validateFieldsForTranslation` (translation-service.js
lines 219-299): a plain JS object with `field`, `originalText`, `itemId` and,
for HTML-bearing fields only, `hasHTML: true` plus `originalHTML`.  The two
optional members default to `false` / `""` when absent. -/
structure TxItem where
  field : String
  originalText : String
  itemId : Nat
  hasHTML : Bool := false
  originalHTML : String := ""
deriving DecidableEq, Repr

/-- A translation result: the spread `{ ...item, translatedText }` used in
`parseBatchResponse` and in the per-batch failure fallback of
`batchTranslate`. -/
structure TxResult where
  item : TxItem
  translatedText : String
deriving DecidableEq, Repr

namespace TranslationService

/-- Fuel-driven core of `createBatches`; the fuel bounds the number of loop
iterations of `for (let i = 0; i < texts.length; i += batchSize)`.  With
`batchSize ≥ 1` a fuel of `texts.length` is always sufficient (the JS loop
never terminates when `batchSize = 0`, a state the service cannot reach since
`this.batchSize` is fixed to 10 in the constructor). -/
def createBatchesGo {α : Type} : Nat → List α → Nat → List (List α)
  | 0, _, _ => []
  | _, [], _ => []
  | fuel + 1, t :: ts, batchSize =>
      (t :: ts).take batchSize :: createBatchesGo fuel ((t :: ts).drop batchSize) batchSize

/-- `TranslationService.createBatches` (translation-service.js lines 104-110):
`batches.push(texts.slice(i, i + batchSize))` for `i = 0, batchSize, ...`. -/
def createBatches {α : Type} (texts : List α) (batchSize : Nat) : List (List α) :=
  createBatchesGo texts.length texts batchSize

theorem createBatchesGo_join {α : Type} (batchSize : Nat) (hb : 1 ≤ batchSize) :
    ∀ (fuel : Nat) (texts : List α), texts.length ≤ fuel →
      (createBatchesGo fuel texts batchSize).flatten = texts := by
  intro fuel
  induction fuel with
  | zero =>
      intro texts h
      have : texts = [] := List.eq_nil_of_length_eq_zero (Nat.le_zero.mp h)
      subst this
      rfl
  | succ n ih =>
      intro texts h
      cases texts with
      | nil => rfl
      | cons t ts =>
          have hlen : ((t :: ts).drop batchSize).length ≤ n := by
            rw [List.length_drop]
            have h1 : (t :: ts).length ≤ n + 1 := h
            omega
          simp only [createBatchesGo, List.flatten]
          rw [ih _ hlen, List.take_append_drop]

theorem createBatchesGo_sizes {α : Type} (batchSize : Nat) (hb : 1 ≤ batchSize) :
    ∀ (fuel : Nat) (texts : List α), texts.length ≤ fuel →
      ∀ batch ∈ (createBatchesGo fuel texts batchSize).dropLast, batch.length = batchSize := by
  intro fuel
  induction fuel with
  | zero =>
      intro texts h batch hmem
      have : texts = [] := List.eq_nil_of_length_eq_zero (Nat.le_zero.mp h)
      subst this
      simp [createBatchesGo] at hmem
  | succ n ih =>
      intro texts h batch hmem
      cases texts with
      | nil => simp [createBatchesGo] at hmem
      | cons t ts =>
          simp only [createBatchesGo] at hmem
          cases hrest : createBatchesGo n ((t :: ts).drop batchSize) batchSize with
          | nil => rw [hrest] at hmem; simp at hmem
          | cons b bs =>
              rw [hrest, List.dropLast_cons_of_ne_nil (by simp)] at hmem
              cases hmem with
              | head =>
                  -- the head batch is a full slice: createBatchesGo produced a
                  -- further batch, so the drop is nonempty and batchSize fits.
                  have hdrop : ((t :: ts).drop batchSize) ≠ [] := by
                    intro hnil
                    rw [hnil] at hrest
                    cases n <;> simp [createBatchesGo] at hrest
                  have hfit : batchSize ≤ (t :: ts).length := by
                    by_contra hlt
                    push_neg at hlt
                    exact hdrop (List.drop_eq_nil_of_le (Nat.le_of_lt hlt))
                  have hfit' : batchSize ≤ ts.length + 1 := by simpa using hfit
                  simp [List.length_take]
                  omega
              | tail _ hmem' =>
                  have hlen : ((t :: ts).drop batchSize).length ≤ n := by
                    rw [List.length_drop]
                    have h1 : (t :: ts).length ≤ n + 1 := h
                    omega
                  have := ih ((t :: ts).drop batchSize) hlen batch
                  rw [hrest] at this
                  exact this hmem'

/-- **C2**: for every request list `R` and batch size `b ≥ 1`, the batches
returned by `createBatches`, concatenated in order, reproduce `R` exactly;
every batch except possibly the last has length exactly `b`; and an empty
input yields zero batches. -/
theorem createBatches_spec {α : Type} (R : List α) (b : Nat) (hb : 1 ≤ b) :
    (createBatches R b).flatten = R ∧
    (∀ batch ∈ (createBatches R b).dropLast, batch.length = b) ∧
    createBatches ([] : List α) b = [] := by
  refine ⟨createBatchesGo_join b hb R.length R le_rfl,
          createBatchesGo_sizes b hb R.length R le_rfl, rfl⟩

/-- Witness for `createBatches_spec` at `R = [0,…,6]`, `b = 3`:
batches `[[0,1,2],[3,4,5],[6]]`. -/
theorem createBatches_spec_witness :
    ([[0, 1, 2], [3, 4, 5], [6]] : List (List Nat)).flatten = [0, 1, 2, 3, 4, 5, 6] ∧
    (∀ batch ∈ ([[0, 1, 2], [3, 4, 5], [6]] : List (List Nat)).dropLast, batch.length = 3) ∧
    createBatches ([] : List Nat) 3 = [] := by
  have h := createBatches_spec [0, 1, 2, 3, 4, 5, 6] 3 (by decide)
  have hc : createBatches [0, 1, 2, 3, 4, 5, 6] 3 = [[0, 1, 2], [3, 4, 5], [6]] := by decide
  rw [hc] at h
  exact h

/-- The decoded pieces of a model response (translation-service.js lines
160-161): `response.choices[0].message.content.trim().split('|||').map(t => t.trim())`. -/
def decodePieces (content : String) : List String :=
  (jsSplit (jsTrim content) "|||").map (fun t => jsTrim t)

/-- `translations[index] || item.originalText` (line 165): an out-of-range
index yields `undefined` and an empty decoded piece is falsy, both falling
back to the request's own `originalText`. -/
def pickTranslation (translations : List String) (index : Nat) (item : TxItem) : String :=
  match translations[index]? with
  | some t => if t.isEmpty then item.originalText else t
  | none => item.originalText

/-- `originalBatch.map((item, index) => ({...item, translatedText: ...}))`
(lines 163-166), with the running index made explicit. -/
def zipBatch (translations : List String) : Nat → List TxItem → List TxResult
  | _, [] => []
  | index, item :: rest =>
      { item := item, translatedText := pickTranslation translations index item } ::
        zipBatch translations (index + 1) rest

/-- `TranslationService.parseBatchResponse` (translation-service.js lines
158-171).  The input is the `content` string found at
`response.choices[0].message.content`, or `none` when that access path throws
(missing choices / message), in which case the surrounding `catch` returns the
all-echo fallback.  The function never raises. -/
def parseBatchResponse (content? : Option String) (originalBatch : List TxItem) :
    List TxResult :=
  match content? with
  | some content => zipBatch (decodePieces content) 0 originalBatch
  | none =>
      originalBatch.map (fun item => { item := item, translatedText := item.originalText })

theorem zipBatch_length (translations : List String) :
    ∀ (index : Nat) (batch : List TxItem),
      (zipBatch translations index batch).length = batch.length := by
  intro index batch
  induction batch generalizing index with
  | nil => rfl
  | cons item rest ih => simp [zipBatch, ih]

theorem zipBatch_getElem? (translations : List String) :
    ∀ (batch : List TxItem) (index j : Nat),
      (zipBatch translations index batch)[j]? =
        (batch[j]?).map
          (fun item =>
            { item := item,
              translatedText := pickTranslation translations (index + j) item }) := by
  intro batch
  induction batch with
  | nil => intro index j; simp [zipBatch]
  | cons item rest ih =>
      intro index j
      cases j with
      | zero => simp [zipBatch]
      | succ j' =>
          simp only [zipBatch, List.getElem?_cons_succ, ih (index + 1) j']
          have : index + 1 + j' = index + (j' + 1) := by omega
          rw [this]

theorem parseBatchResponse_length (content? : Option String) (batch : List TxItem) :
    (parseBatchResponse content? batch).length = batch.length := by
  cases content? with
  | some content =>
      simpa [parseBatchResponse] using zipBatch_length (decodePieces content) 0 batch
  | none => simp [parseBatchResponse]

theorem zipBatch_congr (tr₁ tr₂ : List String) (batch : List TxItem)
    (h : ∀ j < batch.length, tr₁[j]? = tr₂[j]?) :
    zipBatch tr₁ 0 batch = zipBatch tr₂ 0 batch := by
  apply List.ext_getElem?
  intro n
  rw [zipBatch_getElem?, zipBatch_getElem?]
  cases hb : batch[n]? with
  | none => rfl
  | some item =>
      have hn : n < batch.length := by
        by_contra hge
        push_neg at hge
        rw [List.getElem?_eq_none hge] at hb
        exact Option.noConfusion hb
      simp only [Option.map_some', pickTranslation, Nat.zero_add, h n hn]

/-- **C3**: for every batch and every response, `parseBatchResponse` returns
exactly one result per request in batch order (same length, `item` fields
preserved positionally); when the decoded piece count is at most an index
`j`, the entry at `j` falls back to that request's own `originalText`;
pieces beyond the batch size are discarded (the output depends only on the
first `batch.length` pieces); and the exception path (`none` content, i.e. a
malformed response shape) returns the all-echo fallback instead of raising. -/
theorem parseBatchResponse_spec (content? : Option String) (batch : List TxItem) :
    (parseBatchResponse content? batch).length = batch.length ∧
    (∀ (j : Nat) (item : TxItem), batch[j]? = some item →
        ∃ r : TxResult, (parseBatchResponse content? batch)[j]? = some r ∧
          r.item = item) ∧
    (∀ content, content? = some content →
        ∀ (j : Nat) (item : TxItem), batch[j]? = some item →
          (decodePieces content).length ≤ j →
          (parseBatchResponse content? batch)[j]? =
            some { item := item, translatedText := item.originalText }) ∧
    (∀ c₁ c₂ : String,
        (decodePieces c₁).take batch.length = (decodePieces c₂).take batch.length →
        parseBatchResponse (some c₁) batch = parseBatchResponse (some c₂) batch) ∧
    parseBatchResponse none batch =
      batch.map (fun item => { item := item, translatedText := item.originalText }) := by
  refine ⟨parseBatchResponse_length content? batch, ?_, ?_, ?_, rfl⟩
  · intro j item hj
    cases content? with
    | some content =>
        refine ⟨{ item := item,
                  translatedText := pickTranslation (decodePieces content) (0 + j) item },
                ?_, rfl⟩
        rw [parseBatchResponse, zipBatch_getElem?, hj]
        rfl
    | none =>
        refine ⟨{ item := item, translatedText := item.originalText }, ?_, rfl⟩
        rw [parseBatchResponse, List.getElem?_map, hj]
        rfl
  · rintro content rfl j item hj hlen
    rw [parseBatchResponse, zipBatch_getElem?, hj]
    have hnone : (decodePieces content)[j]? = none :=
      List.getElem?_eq_none (by omega)
    simp [pickTranslation, hnone]
  · intro c₁ c₂ htake
    have hpt : ∀ j < batch.length, (decodePieces c₁)[j]? = (decodePieces c₂)[j]? := by
      intro j hjn
      have h₁ : ((decodePieces c₁).take batch.length)[j]? = (decodePieces c₁)[j]? :=
        List.getElem?_take_of_lt hjn
      have h₂ : ((decodePieces c₂).take batch.length)[j]? = (decodePieces c₂)[j]? :=
        List.getElem?_take_of_lt hjn
      rw [← h₁, ← h₂, htake]
    simpa [parseBatchResponse] using zipBatch_congr _ _ batch hpt

/-- Witness for `parseBatchResponse_spec`: a two-request batch decoded against
the single-piece response `"Hola"`; the missing second entry echoes its own
`originalText`. -/
theorem parseBatchResponse_spec_witness :
    (parseBatchResponse (some "Hola")
        [⟨"title", "A", 1, false, ""⟩, ⟨"title", "B", 2, false, ""⟩])[1]? =
      some { item := ⟨"title", "B", 2, false, ""⟩, translatedText := "B" } :=
  (parseBatchResponse_spec (some "Hola")
      [⟨"title", "A", 1, false, ""⟩, ⟨"title", "B", 2, false, ""⟩]).2.2.1
    "Hola" rfl 1 ⟨"title", "B", 2, false, ""⟩ (by decide) (by decide)

/-- **C10**: `parseBatchResponse` substitutes `originalText` for any decoded
piece that trims to the empty string — interior pieces produced by adjacent
delimiters included — so a request with non-empty `originalText` never yields
an empty `translatedText`. -/
theorem parseBatchResponse_no_empty_output (content? : Option String)
    (batch : List TxItem) (j : Nat) (item : TxItem) (h : batch[j]? = some item) :
    (∀ content, content? = some content → (decodePieces content)[j]? = some "" →
        (parseBatchResponse content? batch)[j]? =
          some { item := item, translatedText := item.originalText }) ∧
    (item.originalText ≠ "" →
        ∀ r : TxResult, (parseBatchResponse content? batch)[j]? = some r →
          r.translatedText ≠ "") := by
  constructor
  · rintro content rfl hpiece
    rw [parseBatchResponse, zipBatch_getElem?, h]
    simp [pickTranslation, hpiece]
    exact fun hfalse => absurd hfalse (by decide)
  · intro hne r hr
    cases content? with
    | some content =>
        rw [parseBatchResponse, zipBatch_getElem?, h, Option.map_some',
          Option.some_inj] at hr
        subst hr
        simp only [pickTranslation, Nat.zero_add]
        cases hp : (decodePieces content)[j]? with
        | none => exact hne
        | some t =>
            by_cases ht : t.isEmpty
            · simpa [ht] using hne
            · simpa [ht] using fun he => ht (by simp [he, String.isEmpty_iff])
    | none =>
        rw [parseBatchResponse, List.getElem?_map, h, Option.map_some',
          Option.some_inj] at hr
        subst hr
        exact hne

/-- Witness for `parseBatchResponse_no_empty_output`: response
`"Hola||||||X"` decodes to pieces `["Hola", "", "X"]`; the empty interior
piece at index 1 falls back to the request's `originalText`. -/
theorem parseBatchResponse_no_empty_output_witness :
    (parseBatchResponse (some "Hola||||||X")
        [⟨"f", "A", 1, false, ""⟩, ⟨"f", "B", 2, false, ""⟩])[1]? =
      some { item := ⟨"f", "B", 2, false, ""⟩, translatedText := "B" } :=
  (parseBatchResponse_no_empty_output (some "Hola||||||X")
      [⟨"f", "A", 1, false, ""⟩, ⟨"f", "B", 2, false, ""⟩] 1
      ⟨"f", "B", 2, false, ""⟩ (by decide)).1 "Hola||||||X" rfl (by decide)

/-- The echo fallback `batch.map(item => ({ ...item, translatedText:
item.originalText }))` used both by the `catch` in `batchTranslate` (line 62)
and by the `catch` in `parseBatchResponse` (line 169). -/
def echoResults (batch : List TxItem) : List TxResult :=
  batch.map (fun item => { item := item, translatedText := item.originalText })

/-- Mutable token counters of the service (`this.totalTokensUsed`,
`this.requestCount`, translation-service.js lines 8-9). -/
structure ServiceState where
  totalTokensUsed : Nat
  requestCount : Nat
deriving DecidableEq, Repr

/-- The token-tracking block of `makeOpenAIRequest` (lines 198-208): when the
response carries a `usage` object, add `usage.total_tokens` and bump
`requestCount`; otherwise leave both counters untouched. -/
def trackUsage (st : ServiceState) : Option Nat → ServiceState
  | none => st
  | some tokens =>
      { totalTokensUsed := st.totalTokensUsed + tokens,
        requestCount := st.requestCount + 1 }

/-- Outcome of one upstream OpenAI call, as seen by `batchTranslate`'s loop
body: either `makeOpenAIRequest` threw (network error or non-2xx response),
or it returned a payload with an optional `choices[0].message.content` string
and an optional `usage.total_tokens` count. -/
inductive UpstreamOutcome where
  | failure (message : String)
  | success (content? : Option String) (usage? : Option Nat)

/-- The results one batch contributes: the decoded response on success, the
echo fallback on upstream failure (the `catch` of lines 59-63). -/
def batchOutcome (upstream : Nat → UpstreamOutcome) (i : Nat) (batch : List TxItem) :
    List TxResult :=
  match upstream i with
  | .failure _ => echoResults batch
  | .success content? _ => parseBatchResponse content? batch

/-- The `for (let i = 0; i < batches.length; i++)` loop of `batchTranslate`
(lines 42-64), with the upstream call for batch `i` supplied by the oracle
`upstream` (the calls are strictly sequential, one per batch).  On success
the token counters are updated inside `makeOpenAIRequest` before the
response is parsed; on failure the counters are untouched and the batch
degrades to the echo fallback.  The progress signal and the fixed 1000 ms
inter-batch delay have no effect on the returned data and are not modelled. -/
def runBatches (upstream : Nat → UpstreamOutcome) :
    Nat → ServiceState → List (List TxItem) → ServiceState × List TxResult
  | _, st, [] => (st, [])
  | i, st, batch :: rest =>
      match upstream i with
      | .failure _ =>
          let r := runBatches upstream (i + 1) st rest
          (r.1, echoResults batch ++ r.2)
      | .success content? usage? =>
          let r := runBatches upstream (i + 1) (trackUsage st usage?) rest
          (r.1, parseBatchResponse content? batch ++ r.2)

/-- JS truthiness of the `this.apiKey` field: `null` (never set) and the
empty string are falsy. -/
def strTruthy : Option String → Bool
  | none => false
  | some s => !s.isEmpty

/-- `TranslationService.batchTranslate` (translation-service.js lines 28-68):
fail fast when no API key is configured, return `[]` for an empty input, and
otherwise process the batches sequentially, accumulating results. -/
def batchTranslate (apiKey : Option String) (upstream : Nat → UpstreamOutcome)
    (st : ServiceState) (texts : List TxItem) (batchSize : Nat) :
    Except String (ServiceState × List TxResult) :=
  if strTruthy apiKey = false then .error "OpenAI API key not set"
  else if texts.isEmpty then .ok (st, [])
  else .ok (runBatches upstream 0 st (createBatches texts batchSize))

/-- The per-batch result blocks, in batch order. -/
def perBatchResults (upstream : Nat → UpstreamOutcome) :
    Nat → List (List TxItem) → List (List TxResult)
  | _, [] => []
  | i, batch :: rest => batchOutcome upstream i batch :: perBatchResults upstream (i + 1) rest

theorem runBatches_snd (upstream : Nat → UpstreamOutcome) :
    ∀ (batches : List (List TxItem)) (i : Nat) (st : ServiceState),
      (runBatches upstream i st batches).2 = (perBatchResults upstream i batches).flatten := by
  intro batches
  induction batches with
  | nil => intro i st; rfl
  | cons batch rest ih =>
      intro i st
      cases hup : upstream i with
      | failure msg =>
          simp [runBatches, perBatchResults, batchOutcome, hup, ih]
      | success content? usage? =>
          simp [runBatches, perBatchResults, batchOutcome, hup, ih]

theorem echoResults_map_item (batch : List TxItem) :
    (echoResults batch).map TxResult.item = batch := by
  simp [echoResults, List.map_map, Function.comp_def]

theorem zipBatch_map_item (translations : List String) :
    ∀ (index : Nat) (batch : List TxItem),
      (zipBatch translations index batch).map TxResult.item = batch := by
  intro index batch
  induction batch generalizing index with
  | nil => rfl
  | cons item rest ih => simp [zipBatch, ih]

theorem parseBatchResponse_map_item (content? : Option String) (batch : List TxItem) :
    (parseBatchResponse content? batch).map TxResult.item = batch := by
  cases content? with
  | some content => simpa [parseBatchResponse] using zipBatch_map_item (decodePieces content) 0 batch
  | none => simp [parseBatchResponse, List.map_map, Function.comp_def]

theorem batchOutcome_map_item (upstream : Nat → UpstreamOutcome) (i : Nat)
    (batch : List TxItem) : (batchOutcome upstream i batch).map TxResult.item = batch := by
  cases hup : upstream i with
  | failure msg => simp [batchOutcome, hup, echoResults_map_item]
  | success content? usage? => simp [batchOutcome, hup, parseBatchResponse_map_item]

theorem perBatchResults_map_item (upstream : Nat → UpstreamOutcome) :
    ∀ (batches : List (List TxItem)) (i : Nat),
      ((perBatchResults upstream i batches).flatten).map TxResult.item = batches.flatten := by
  intro batches
  induction batches with
  | nil => intro i; rfl
  | cons batch rest ih =>
      intro i
      simp [perBatchResults, List.map_append, batchOutcome_map_item, ih]

theorem perBatchResults_getElem? (upstream : Nat → UpstreamOutcome) :
    ∀ (batches : List (List TxItem)) (i k : Nat),
      (perBatchResults upstream i batches)[k]? =
        (batches[k]?).map (fun batch => batchOutcome upstream (i + k) batch) := by
  intro batches
  induction batches with
  | nil => intro i k; simp [perBatchResults]
  | cons batch rest ih =>
      intro i k
      cases k with
      | zero => simp [perBatchResults]
      | succ k' =>
          simp only [perBatchResults, List.getElem?_cons_succ, ih (i + 1) k']
          have : i + 1 + k' = i + (k' + 1) := by omega
          rw [this]

/-- **C1**: `batchTranslate` raises exactly when the API key is absent (or
empty); with a key configured it returns one result per request, in input
order, with every `item` preserved; the results decompose into per-batch
blocks where a batch whose upstream call failed contributes the echo
fallback (`translatedText = originalText`) for exactly its own requests,
while every other batch contributes its decoded response — a single batch's
failure never aborts the remaining batches. -/
theorem batchTranslate_spec (apiKey : Option String) (upstream : Nat → UpstreamOutcome)
    (st : ServiceState) (texts : List TxItem) (batchSize : Nat) (hb : 1 ≤ batchSize) :
    ((∃ e, batchTranslate apiKey upstream st texts batchSize = .error e) ↔
        strTruthy apiKey = false) ∧
    (strTruthy apiKey = true →
      ∃ st' results,
        batchTranslate apiKey upstream st texts batchSize = .ok (st', results) ∧
        results.length = texts.length ∧
        results.map TxResult.item = texts ∧
        results = (perBatchResults upstream 0 (createBatches texts batchSize)).flatten ∧
        (∀ (i : Nat) (batch : List TxItem) (msg : String),
            (createBatches texts batchSize)[i]? = some batch →
            upstream i = .failure msg →
            (perBatchResults upstream 0 (createBatches texts batchSize))[i]? =
              some (echoResults batch)) ∧
        (∀ (i : Nat) (batch : List TxItem) (content? : Option String) (usage? : Option Nat),
            (createBatches texts batchSize)[i]? = some batch →
            upstream i = .success content? usage? →
            (perBatchResults upstream 0 (createBatches texts batchSize))[i]? =
              some (parseBatchResponse content? batch))) := by
  have hjoin : (createBatches texts batchSize).flatten = texts :=
    createBatchesGo_join batchSize hb texts.length texts le_rfl
  constructor
  · constructor
    · rintro ⟨e, he⟩
      by_contra hk
      rw [Bool.not_eq_false] at hk
      rw [batchTranslate, hk] at he
      by_cases hemp : texts.isEmpty <;> simp [hemp] at he
    · intro hk
      exact ⟨"OpenAI API key not set", by rw [batchTranslate, hk]; rfl⟩
  · intro hk
    have hk' : strTruthy apiKey = false → False := by rw [hk]; exact fun h => by cases h
    by_cases hemp : texts.isEmpty
    · have htexts : texts = [] := List.isEmpty_iff.mp hemp
      subst htexts
      refine ⟨st, [], ?_, rfl, rfl, rfl, ?_, ?_⟩
      · rw [batchTranslate, hk]
        rfl
      · intro i batch msg hbatch
        simp [createBatches, createBatchesGo] at hbatch
      · intro i batch content? usage? hbatch
        simp [createBatches, createBatchesGo] at hbatch
    · refine ⟨(runBatches upstream 0 st (createBatches texts batchSize)).1,
              (runBatches upstream 0 st (createBatches texts batchSize)).2, ?_, ?_, ?_, ?_, ?_, ?_⟩
      · rw [batchTranslate, hk]
        simp [hemp]
      · rw [runBatches_snd]
        have h2 := congrArg List.length (perBatchResults_map_item upstream (createBatches texts batchSize) 0)
        rw [List.length_map] at h2
        rw [h2, hjoin]
      · rw [runBatches_snd, perBatchResults_map_item, hjoin]
      · exact runBatches_snd upstream (createBatches texts batchSize) 0 st
      · intro i batch msg hbatch hup
        rw [perBatchResults_getElem? upstream (createBatches texts batchSize) 0 i, hbatch]
        simp [batchOutcome, hup]
      · intro i batch content? usage? hbatch hup
        rw [perBatchResults_getElem? upstream (createBatches texts batchSize) 0 i, hbatch]
        simp [batchOutcome, hup]

/-- Witness for `batchTranslate_spec`: four requests, batch size 2, upstream
failing on the second batch only; the call succeeds with one result per
request. -/
theorem batchTranslate_spec_witness :
    ∃ st' results,
      batchTranslate (some "key")
          (fun i => if i = 1 then .failure "boom" else .success (some "X|||Y") (some 5))
          ⟨0, 0⟩
          [⟨"f", "a", 1, false, ""⟩, ⟨"f", "b", 2, false, ""⟩,
           ⟨"f", "c", 3, false, ""⟩, ⟨"f", "d", 4, false, ""⟩] 2 = .ok (st', results) ∧
      results.length = 4 := by
  obtain ⟨st', results, hok, hlen, -, -, -, -⟩ :=
    (batchTranslate_spec (some "key")
        (fun i => if i = 1 then .failure "boom" else .success (some "X|||Y") (some 5))
        ⟨0, 0⟩
        [⟨"f", "a", 1, false, ""⟩, ⟨"f", "b", 2, false, ""⟩,
         ⟨"f", "c", 3, false, ""⟩, ⟨"f", "d", 4, false, ""⟩] 2 (by decide)).2 (by decide)
  exact ⟨st', results, hok, by rw [hlen]; rfl⟩

/-- The operations of `TranslationService` that can touch the two counter
fields, read off the source: `setApiKey` (line 18) and `getStats` (line 345)
leave them alone; a completed `makeOpenAIRequest` applies the tracking block
(lines 198-208, `trackUsage`; a request that throws, or whose response has
no `usage` object, changes nothing, modelled by `usage? = none`); and
`resetStats` (lines 356-360) zeroes both.  Every other method mutates the
counters only through `makeOpenAIRequest`. -/
inductive ServiceOp where
  | setApiKey (key : Option String)
  | openAIRequest (usage? : Option Nat)
  | getStats
  | resetStats
deriving DecidableEq

/-- Effect of each counter-touching operation on the service state. -/
def applyOp (st : ServiceState) : ServiceOp → ServiceState
  | .setApiKey _ => st
  | .openAIRequest usage? => trackUsage st usage?
  | .getStats => st
  | .resetStats => { totalTokensUsed := 0, requestCount := 0 }

/-- **C8**: `totalTokensUsed` and `requestCount` are monotonically
non-decreasing across every operation of the translation service except
`resetStats`; `resetStats` zeroes both, and it is the only operation able
to decrease either counter.  The batch loop (`runBatches`), which applies
`trackUsage` once per successful upstream call, is monotone as well. -/
theorem usageCounter_monotone (st : ServiceState) (op : ServiceOp)
    (h : op ≠ ServiceOp.resetStats) :
    (st.totalTokensUsed ≤ (applyOp st op).totalTokensUsed ∧
      st.requestCount ≤ (applyOp st op).requestCount) ∧
    ((applyOp st ServiceOp.resetStats).totalTokensUsed = 0 ∧
      (applyOp st ServiceOp.resetStats).requestCount = 0) ∧
    (∀ op' : ServiceOp,
        (applyOp st op').totalTokensUsed < st.totalTokensUsed ∨
          (applyOp st op').requestCount < st.requestCount →
        op' = ServiceOp.resetStats) ∧
    (∀ (upstream : Nat → UpstreamOutcome) (i : Nat) (batches : List (List TxItem)),
        st.totalTokensUsed ≤ (runBatches upstream i st batches).1.totalTokensUsed ∧
          st.requestCount ≤ (runBatches upstream i st batches).1.requestCount) := by
  have hmono : ∀ (s : ServiceState) (u : Option Nat),
      s.totalTokensUsed ≤ (trackUsage s u).totalTokensUsed ∧
        s.requestCount ≤ (trackUsage s u).requestCount := by
    intro s u
    cases u with
    | none => exact ⟨le_refl _, le_refl _⟩
    | some tokens => exact ⟨Nat.le_add_right _ _, Nat.le_add_right _ _⟩
  refine ⟨?_, ⟨rfl, rfl⟩, ?_, ?_⟩
  · cases op with
    | setApiKey key => exact ⟨le_refl _, le_refl _⟩
    | openAIRequest usage? => exact hmono st usage?
    | getStats => exact ⟨le_refl _, le_refl _⟩
    | resetStats => exact absurd rfl h
  · intro op' hlt
    cases op' with
    | setApiKey key => simp [applyOp] at hlt
    | openAIRequest usage? =>
        have hb := hmono st usage?
        simp only [applyOp] at hlt
        omega
    | getStats => simp [applyOp] at hlt
    | resetStats => rfl
  · intro upstream i batches
    induction batches generalizing i st with
    | nil => exact ⟨le_refl _, le_refl _⟩
    | cons batch rest ih =>
        cases hup : upstream i with
        | failure msg =>
            simpa [runBatches, hup] using ih st (i + 1)
        | success content? usage? =>
            have h1 := hmono st usage?
            have h2 := ih (trackUsage st usage?) (i + 1)
            simp only [runBatches, hup]
            exact ⟨le_trans h1.1 h2.1, le_trans h1.2 h2.2⟩

/-- Witness for `usageCounter_monotone`: a tracked request with 5 tokens on
counters (3, 2). -/
theorem usageCounter_monotone_witness :
    (3 ≤ (applyOp ⟨3, 2⟩ (ServiceOp.openAIRequest (some 5))).totalTokensUsed ∧
      2 ≤ (applyOp ⟨3, 2⟩ (ServiceOp.openAIRequest (some 5))).requestCount) ∧
    (applyOp ⟨3, 2⟩ ServiceOp.resetStats).totalTokensUsed = 0 := by
  have h := usageCounter_monotone ⟨3, 2⟩ (ServiceOp.openAIRequest (some 5)) (by decide)
  exact ⟨h.1, h.2.1.1⟩

end TranslationService

namespace ShopifyAPI

/-- The rate-limit state of `ShopifyAPI` (shopify-api.js lines 10-11):
`rateLimitRemaining` starts at 40 and is refreshed from the
`X-Shopify-Shop-Api-Call-Limit` response header; a malformed header makes it
`NaN`, modelled as `none`.  `lastRequestTime` starts at 0 and holds the
`Date.now()` timestamp of the last request. -/
structure RateState where
  rateLimitRemaining : Option Int
  lastRequestTime : Int
deriving DecidableEq, Repr

/-- JS `x <= 2` on a possibly-`NaN` number: every comparison with `NaN` is
false. -/
def jsLeTwo : Option Int → Bool
  | none => false
  | some v => v ≤ 2

/-- `ShopifyAPI.waitForRateLimit` (shopify-api.js lines 254-264), as a pure
function of the state and the current clock reading `now`: returns the delay
(ms) the caller is suspended for, together with the state after
`this.lastRequestTime = Date.now()` — the second `Date.now()` reads
`now + delay` under an exact timer. -/
def waitForRateLimit (st : RateState) (now : Int) : Int × RateState :=
  let timeSinceLastRequest := now - st.lastRequestTime
  let waitTime :=
    if jsLeTwo st.rateLimitRemaining ∧ timeSinceLastRequest < 1000 then
      1000 - timeSinceLastRequest
    else 0
  (waitTime, { st with lastRequestTime := now + waitTime })

/-- `ShopifyAPI.updateRateLimit` (shopify-api.js lines 269-275):
`headers.get(...)` is `none` when the header is absent; a present but empty
header is falsy and also skips the update; otherwise the header is split on
`"/"` and `rateLimitRemaining` becomes `total - used` (NaN-propagating when
either half fails to parse; a headerless `parts[1]` is `undefined`, i.e.
`NaN`).  The function is total: it never throws. -/
def updateRateLimit (st : RateState) (header : Option String) : RateState :=
  match header with
  | none => st
  | some s =>
      if s.isEmpty then st
      else
        let parts := jsSplit s "/"
        let used := (parts[0]?).bind jsNumber
        let total := (parts[1]?).bind jsNumber
        { st with rateLimitRemaining :=
            match used, total with
            | some u, some t => some (t - u)
            | _, _ => none }

/-- **C6**: `waitForRateLimit` suspends the caller iff
`rateLimitRemaining <= 2` and less than 1000 ms elapsed since the last
request, and then for exactly the remaining portion of the 1000 ms window;
in every other state it proceeds with no delay. -/
theorem waitForRateLimit_spec (st : RateState) (now : Int) :
    ((waitForRateLimit st now).1 ≠ 0 ↔
        jsLeTwo st.rateLimitRemaining = true ∧ now - st.lastRequestTime < 1000) ∧
    (jsLeTwo st.rateLimitRemaining = true → now - st.lastRequestTime < 1000 →
        (waitForRateLimit st now).1 = 1000 - (now - st.lastRequestTime)) := by
  constructor
  · constructor
    · intro hne
      by_contra hcond
      rw [Classical.not_and_iff_or_not_not] at hcond
      apply hne
      rw [waitForRateLimit]
      rcases hcond with hc | hc
      · rw [if_neg]
        rintro ⟨h1, -⟩
        exact hc h1
      · rw [if_neg]
        rintro ⟨-, h2⟩
        exact hc h2
    · rintro ⟨h1, h2⟩
      rw [waitForRateLimit]
      simp only [h1, h2, and_self, if_pos]
      omega
  · intro h1 h2
    rw [waitForRateLimit]
    simp only [h1, h2, and_self, if_pos]

/-- Witness for `waitForRateLimit_spec`: allowance 2, 500 ms into the window
⇒ a 500 ms suspension. -/
theorem waitForRateLimit_spec_witness :
    (waitForRateLimit ⟨some 2, 0⟩ 500).1 = 1000 - (500 - (0 : Int)) := by
  exact (waitForRateLimit_spec ⟨some 2, 0⟩ 500).2 (by decide) (by decide)

/-- **C7**: `updateRateLimit` never throws (it is a total function); when the
rate-limit header is absent or empty, the entire state — in particular
`rateLimitRemaining` — is left unchanged; `lastRequestTime` is never touched;
and a present header of the form `"used/total"` sets `rateLimitRemaining` to
`total - used`. -/
theorem updateRateLimit_spec (st : RateState) (header : Option String) :
    (header = none ∨ header = some "" → updateRateLimit st header = st) ∧
    (updateRateLimit st header).lastRequestTime = st.lastRequestTime ∧
    (∀ (s a b : String) (u t : Int),
        header = some s → s.isEmpty = false → jsSplit s "/" = [a, b] →
        jsNumber a = some u → jsNumber b = some t →
        (updateRateLimit st header).rateLimitRemaining = some (t - u)) := by
  refine ⟨?_, ?_, ?_⟩
  · rintro (rfl | rfl)
    · rfl
    · rfl
  · cases header with
    | none => rfl
    | some s =>
        rw [updateRateLimit]
        by_cases hs : s.isEmpty
        · rw [if_pos hs]
        · rw [if_neg hs]
  · rintro s a b u t rfl hs hsplit ha hb
    rw [updateRateLimit]
    rw [if_neg (by rw [hs]; exact fun h => by cases h)]
    simp only [hsplit, List.getElem?_cons_zero, List.getElem?_cons_succ,
      Option.some_bind, ha, hb]

/-- Witness for `updateRateLimit_spec`: header `"32/40"` sets the remaining
allowance to 8; an absent header leaves the state unchanged. -/
theorem updateRateLimit_spec_witness :
    (updateRateLimit ⟨some 40, 7⟩ (some "32/40")).rateLimitRemaining = some (40 - 32 : Int) := by
  exact (updateRateLimit_spec ⟨some 40, 7⟩ (some "32/40")).2.2 "32/40" "32" "40" 32 40
    rfl (by decide) (by decide) (by decide) (by decide)

end ShopifyAPI

/-- A Shopify content record as consumed by `validateFieldsForTranslation`:
`title`, `body_html` and `tags` are raw strings, with `""` standing for a
missing/empty (falsy) field. -/
structure ContentItem where
  id : Nat
  title : String := ""
  body_html : String := ""
  tags : String := ""
deriving DecidableEq, Repr

/-- The user's field-selection checkboxes (`getSelectedFields` in the page
script): only `title`, `description`, `tags` and `content` are consulted by
`validateFieldsForTranslation`; the meta/variant flags exist in the UI
object but are never read by the extractor. -/
structure SelectedFields where
  title : Bool := false
  description : Bool := false
  tags : Bool := false
  content : Bool := false
  metaTitle : Bool := false
  metaDescription : Bool := false
  variantTitle : Bool := false
deriving DecidableEq, Repr

/-- The `itemType` switch discriminant (`'product' | 'collection' | 'page'`). -/
inductive ItemType where
  | product
  | collection
  | page
deriving DecidableEq, Repr

namespace TranslationService

/-- `TranslationService.validateFieldsForTranslation` (translation-service.js
lines 219-299).  `stripHTML` (lines 304-308) renders markup to plain text via
the browser DOM and is passed in as the external collaborator.  Title and
tags values are guarded only by JS truthiness (`item.title`, `item.tags`:
non-empty string), while HTML-bearing fields are additionally guarded by
`textContent.trim()` being truthy. -/
def validateFieldsForTranslation (stripHTML : String → String) (item : ContentItem)
    (selectedFields : SelectedFields) (itemType : ItemType) : List TxItem :=
  match itemType with
  | .product =>
      (if selectedFields.title && !item.title.isEmpty then
         [{ field := "title", originalText := item.title, itemId := item.id }]
       else []) ++
      (if selectedFields.description && !item.body_html.isEmpty then
         (if !(jsTrim (stripHTML item.body_html)).isEmpty then
            [{ field := "description", originalText := stripHTML item.body_html,
               itemId := item.id, hasHTML := true, originalHTML := item.body_html }]
          else [])
       else []) ++
      (if selectedFields.tags && !item.tags.isEmpty then
         [{ field := "tags", originalText := item.tags, itemId := item.id }]
       else [])
  | .collection =>
      (if selectedFields.title && !item.title.isEmpty then
         [{ field := "title", originalText := item.title, itemId := item.id }]
       else []) ++
      (if selectedFields.description && !item.body_html.isEmpty then
         (if !(jsTrim (stripHTML item.body_html)).isEmpty then
            [{ field := "description", originalText := stripHTML item.body_html,
               itemId := item.id, hasHTML := true, originalHTML := item.body_html }]
          else [])
       else [])
  | .page =>
      (if selectedFields.title && !item.title.isEmpty then
         [{ field := "title", originalText := item.title, itemId := item.id }]
       else []) ++
      (if selectedFields.content && !item.body_html.isEmpty then
         (if !(jsTrim (stripHTML item.body_html)).isEmpty then
            [{ field := "content", originalText := stripHTML item.body_html,
               itemId := item.id, hasHTML := true, originalHTML := item.body_html }]
          else [])
       else [])

/-- **C4 (counterexample)**: the claim that `validateFieldsForTranslation`
never emits a request whose `originalText` is empty *or whitespace-only* is
false: a product whose title is the three-space string `"   "` is truthy, so
with the title field selected the extractor emits a request whose
`originalText` is whitespace-only. -/
theorem validateFieldsForTranslation_whitespace_counterexample :
    (validateFieldsForTranslation (fun s => s) { id := 1, title := "   " }
        { title := true } ItemType.product).map TxItem.originalText = ["   "] ∧
    jsTrim "   " = "" :=
  ⟨by decide, by decide⟩

theorem plain_block_spec (value fieldName : String) (iid : Nat) (flag : Bool)
    (req : TxItem)
    (hmem : req ∈ (if flag && !value.isEmpty then
        [{ field := fieldName, originalText := value, itemId := iid }]
      else ([] : List TxItem))) :
    req.originalText ≠ "" ∧ (req.hasHTML = true → jsTrim req.originalText ≠ "") := by
  split_ifs at hmem with hc
  · rw [List.mem_singleton] at hmem
    subst hmem
    rw [Bool.and_eq_true] at hc
    constructor
    · intro habs
      have hv : value = "" := habs
      rw [hv] at hc
      exact absurd hc.2 (by decide)
    · intro hh
      simp at hh
  · simp at hmem

theorem html_block_spec (strip : String → String) (body fieldName : String)
    (iid : Nat) (flag : Bool) (req : TxItem)
    (hmem : req ∈ (if flag && !body.isEmpty then
        (if !(jsTrim (strip body)).isEmpty then
           [{ field := fieldName, originalText := strip body, itemId := iid,
              hasHTML := true, originalHTML := body }]
         else ([] : List TxItem))
      else [])) :
    req.originalText ≠ "" ∧ (req.hasHTML = true → jsTrim req.originalText ≠ "") := by
  split_ifs at hmem with hc₁ hc₂
  · rw [List.mem_singleton] at hmem
    subst hmem
    have hte : (jsTrim (strip body)).isEmpty = false := by simpa using hc₂
    constructor
    · intro habs
      have hv : strip body = "" := habs
      rw [hv] at hte
      exact absurd hte (by decide)
    · intro _ habs
      have hv : jsTrim (strip body) = "" := habs
      rw [hv] at hte
      exact absurd hte (by decide)
  · simp at hmem
  · simp at hmem

/-- **C4 (amended)**: `validateFieldsForTranslation` never emits a request
whose `originalText` is the empty string, and requests carrying markup
(`hasHTML`, i.e. the HTML-stripped description/content fields) additionally
never have whitespace-only `originalText`; blank or missing fields contribute
no request.  (A whitespace-only — but non-empty — `title` or `tags` value is
emitted verbatim; the whitespace guard applies only to the stripped fields.) -/
theorem validateFieldsForTranslation_amended (stripHTML : String → String)
    (item : ContentItem) (selectedFields : SelectedFields) (itemType : ItemType)
    (req : TxItem)
    (hmem : req ∈ validateFieldsForTranslation stripHTML item selectedFields itemType) :
    req.originalText ≠ "" ∧ (req.hasHTML = true → jsTrim req.originalText ≠ "") := by
  cases itemType with
  | product =>
      simp only [validateFieldsForTranslation, List.mem_append] at hmem
      rcases hmem with (h | h) | h
      · exact plain_block_spec item.title "title" item.id selectedFields.title req h
      · exact html_block_spec stripHTML item.body_html "description" item.id
          selectedFields.description req h
      · exact plain_block_spec item.tags "tags" item.id selectedFields.tags req h
  | collection =>
      simp only [validateFieldsForTranslation, List.mem_append] at hmem
      rcases hmem with h | h
      · exact plain_block_spec item.title "title" item.id selectedFields.title req h
      · exact html_block_spec stripHTML item.body_html "description" item.id
          selectedFields.description req h
  | page =>
      simp only [validateFieldsForTranslation, List.mem_append] at hmem
      rcases hmem with h | h
      · exact plain_block_spec item.title "title" item.id selectedFields.title req h
      · exact html_block_spec stripHTML item.body_html "content" item.id
          selectedFields.content req h

/-- Witness for `validateFieldsForTranslation_amended`: the title request
extracted from the spec's end-to-end record `{id: 7, title: "Blue Shirt"}`. -/
theorem validateFieldsForTranslation_amended_witness :
    (⟨"title", "Blue Shirt", 7, false, ""⟩ : TxItem).originalText ≠ "" ∧
    ((⟨"title", "Blue Shirt", 7, false, ""⟩ : TxItem).hasHTML = true →
      jsTrim (⟨"title", "Blue Shirt", 7, false, ""⟩ : TxItem).originalText ≠ "") :=
  validateFieldsForTranslation_amended (fun s => s) { id := 7, title := "Blue Shirt" }
    { title := true } ItemType.product ⟨"title", "Blue Shirt", 7, false, ""⟩ (by decide)

end TranslationService

/-- `validateTranslationRequest` (page script lines 750-765):
`Object.values(selectedFields).some(field => field)` over the checkbox
object, then a check that at least one item id is selected; logs a
validation error and returns `false` on either failure, `true` otherwise. -/
def validateTranslationRequest (selectedFieldValues : List Bool)
    (selectedIds : List String) : Bool :=
  if !(selectedFieldValues.any (fun field => field)) then false
  else if selectedIds.length = 0 then false
  else true

/-- `Object.values` of the product field-selection object built by
`getSelectedFields('product')`, in insertion order. -/
def productFieldValues (f : SelectedFields) : List Bool :=
  [f.title, f.description, f.tags, f.metaTitle, f.metaDescription, f.variantTitle]

/-- The network operations the product translation flow can issue. -/
inductive NetCall where
  | fetchProduct (id : String)
  | openAIBatch (productId : String) (batchIndex : Nat)
  | updateProduct (id : String)
deriving DecidableEq, Repr

/-- The network trace of `translateProducts` (page script lines 387-439) on
its happy path: the flow returns immediately — before any network call —
when `validateTranslationRequest` fails; otherwise, for each selected id in
order it fetches the product, extracts the texts, and (when any text was
extracted) issues one OpenAI call per batch of 10 followed by the product
update.  `fetch` is the content store collaborator resolving an id to its
record. -/
def translateProductsCalls (selectedFields : SelectedFields) (selectedIds : List String)
    (fetch : String → ContentItem) (stripHTML : String → String) : List NetCall :=
  if !validateTranslationRequest (productFieldValues selectedFields) selectedIds then []
  else
    selectedIds.flatMap (fun pid =>
      NetCall.fetchProduct pid ::
        (if (TranslationService.validateFieldsForTranslation stripHTML (fetch pid)
              selectedFields ItemType.product).isEmpty then
           []
         else
           ((List.range (TranslationService.createBatches
                (TranslationService.validateFieldsForTranslation stripHTML (fetch pid)
                  selectedFields ItemType.product) 10).length).map
              (fun k => NetCall.openAIBatch pid k)) ++ [NetCall.updateProduct pid]))

/-- **C9**: `validateTranslationRequest` accepts exactly when at least one
field flag is true and at least one item is selected — it rejects iff zero
fields or zero items are selected — and on rejection the product translation
flow performs no network activity at all. -/
theorem validateTranslationRequest_spec (fieldValues : List Bool)
    (selectedIds : List String) (selectedFields : SelectedFields)
    (fetch : String → ContentItem) (stripHTML : String → String) :
    (validateTranslationRequest fieldValues selectedIds = true ↔
        fieldValues.any (fun field => field) = true ∧ selectedIds ≠ []) ∧
    (validateTranslationRequest (productFieldValues selectedFields) selectedIds = false →
        translateProductsCalls selectedFields selectedIds fetch stripHTML = []) := by
  constructor
  · constructor
    · intro h
      rw [validateTranslationRequest] at h
      by_cases hany : fieldValues.any (fun field => field)
      · refine ⟨hany, ?_⟩
        intro hnil
        subst hnil
        rw [hany] at h
        simp at h
      · rw [Bool.not_eq_true] at hany
        rw [hany] at h
        simp at h
    · rintro ⟨hany, hne⟩
      rw [validateTranslationRequest, hany]
      have : selectedIds.length ≠ 0 := fun h => hne (List.eq_nil_of_length_eq_zero h)
      simp [this]
  · intro hfail
    rw [translateProductsCalls, hfail]
    rfl

/-- Witness for `validateTranslationRequest_spec`: one selected field and one
selected id are accepted; with no field selected, the flow issues zero
network calls. -/
theorem validateTranslationRequest_spec_witness :
    validateTranslationRequest [true] ["1"] = true ∧
    translateProductsCalls {} ["1"] (fun _ => { id := 1 }) (fun s => s) = [] := by
  constructor
  · exact (validateTranslationRequest_spec [true] ["1"] {} (fun _ => { id := 1 })
      (fun s => s)).1.mpr ⟨by decide, by decide⟩
  · exact (validateTranslationRequest_spec [true] ["1"] {} (fun _ => { id := 1 })
      (fun s => s)).2 (by decide)

/-- A parsed HTML fragment node: the DOM tree the browser builds when
`restoreHTML` assigns `div.innerHTML = originalHTML` (translation-service.js
lines 313-340).  Attributes and other node kinds play no role in the walk
(`NodeFilter.SHOW_TEXT`) and are omitted; the browser parse that turns the
markup string into this tree is the out-of-scope collaborator, and
serialization (`div.innerHTML` read-back) is its inverse on this
representation. -/
inductive HtmlNode where
  | text (value : String)
  | elem (tag : String) (children : List HtmlNode)

mutual

/-- The text-node values of a node in document (pre-order) traversal order,
i.e. the `nodeValue`s the `TreeWalker` visits. -/
def textValues : HtmlNode → List String
  | .text value => [value]
  | .elem _ children => textValuesList children

def textValuesList : List HtmlNode → List String
  | [] => []
  | n :: ns => textValues n ++ textValuesList ns

end

/-- The number of text nodes whose `nodeValue.trim()` is truthy — the
`textNodes.length` computed by the walker loop (lines 326-332). -/
def countNonWs (fragment : List HtmlNode) : Nat :=
  ((textValuesList fragment).filter (fun v => !(jsTrim v).isEmpty)).length

mutual

/-- Replace the first not-yet-replaced non-whitespace text node's value by
`t`; the boolean threads whether the replacement already happened
(`textNodes[0].nodeValue = translatedText` touches only the first collected
node). -/
def replaceFirstNode (t : String) : HtmlNode → Bool → HtmlNode × Bool
  | .text value, done =>
      if !done && !(jsTrim value).isEmpty then (.text t, true) else (.text value, done)
  | .elem tag children, done =>
      let r := replaceFirstList t children done
      (.elem tag r.1, r.2)

def replaceFirstList (t : String) : List HtmlNode → Bool → List HtmlNode × Bool
  | [], done => ([], done)
  | n :: ns, done =>
      let r₁ := replaceFirstNode t n done
      let r₂ := replaceFirstList t ns r₁.2
      (r₁.1 :: r₂.1, r₂.2)

end

/-- `TranslationService.restoreHTML` (translation-service.js lines 313-340)
at the parsed-fragment level: if exactly one non-whitespace text node exists,
its `nodeValue` becomes `translatedText`; otherwise the fragment is returned
untouched. -/
def restoreHTML (originalFragment : List HtmlNode) (translatedText : String) :
    List HtmlNode :=
  if countNonWs originalFragment = 1 then
    (replaceFirstList translatedText originalFragment false).1
  else originalFragment

mutual

/-- `innerHTML`-style serialization of the fragment (text verbatim,
elements as `<tag>…</tag>`). -/
def serializeNode : HtmlNode → String
  | .text value => value
  | .elem tag children => "<" ++ tag ++ ">" ++ serializeList children ++ "</" ++ tag ++ ">"

def serializeList : List HtmlNode → String
  | [] => ""
  | n :: ns => serializeNode n ++ serializeList ns

end

mutual

/-- The fragment with every text value blanked: its pure element structure. -/
def shapeNode : HtmlNode → HtmlNode
  | .text _ => .text ""
  | .elem tag children => .elem tag (shapeList children)

def shapeList : List HtmlNode → List HtmlNode
  | [] => []
  | n :: ns => shapeNode n :: shapeList ns

end

/-- Whether some value in the list is non-whitespace. -/
def hasNonWs (vs : List String) : Bool :=
  vs.any (fun v => !(jsTrim v).isEmpty)

/-- Specification-side list operation: replace the first non-whitespace
entry by `t`, leave everything else alone. -/
def replaceFirstNonWsValue (t : String) : List String → List String
  | [] => []
  | v :: vs =>
      if !(jsTrim v).isEmpty then t :: vs else v :: replaceFirstNonWsValue t vs

theorem replaceFirstNonWsValue_append (t : String) (xs ys : List String) :
    replaceFirstNonWsValue t (xs ++ ys) =
      if hasNonWs xs then replaceFirstNonWsValue t xs ++ ys
      else xs ++ replaceFirstNonWsValue t ys := by
  induction xs with
  | nil => simp [hasNonWs]
  | cons v vs ih =>
      by_cases hv : (jsTrim v).isEmpty
      · simp [replaceFirstNonWsValue, hasNonWs, hv, ih]
        split_ifs <;> simp_all [hasNonWs]
      · simp [replaceFirstNonWsValue, hasNonWs, hv]

theorem hasNonWs_append (xs ys : List String) :
    hasNonWs (xs ++ ys) = (hasNonWs xs || hasNonWs ys) := by
  simp [hasNonWs, List.any_append]

theorem replaceFirstNonWsValue_of_ws (t : String) (vs : List String)
    (h : hasNonWs vs = false) : replaceFirstNonWsValue t vs = vs := by
  induction vs with
  | nil => rfl
  | cons v vs ih =>
      rw [hasNonWs, List.any_cons, Bool.or_eq_false_iff] at h
      rw [replaceFirstNonWsValue, if_neg (by simp [h.1]), ih h.2]

mutual

theorem replaceFirstNode_done (t : String) :
    (n : HtmlNode) → replaceFirstNode t n true = (n, true)
  | .text value => by simp [replaceFirstNode]
  | .elem tag children => by
      simp [replaceFirstNode, replaceFirstList_done t children]

theorem replaceFirstList_done (t : String) :
    (ns : List HtmlNode) → replaceFirstList t ns true = (ns, true)
  | [] => rfl
  | n :: ns => by
      simp [replaceFirstList, replaceFirstNode_done t n, replaceFirstList_done t ns]

end

mutual

theorem replaceFirstNode_false (t : String) :
    (n : HtmlNode) →
      textValues ((replaceFirstNode t n false).1) =
          replaceFirstNonWsValue t (textValues n) ∧
        (replaceFirstNode t n false).2 = hasNonWs (textValues n)
  | .text value => by
      by_cases hv : (jsTrim value).isEmpty <;>
        simp [replaceFirstNode, textValues, replaceFirstNonWsValue, hasNonWs, hv]
  | .elem tag children => by
      have h := replaceFirstList_false t children
      simp only [replaceFirstNode, textValues]
      exact h

theorem replaceFirstList_false (t : String) :
    (ns : List HtmlNode) →
      textValuesList ((replaceFirstList t ns false).1) =
          replaceFirstNonWsValue t (textValuesList ns) ∧
        (replaceFirstList t ns false).2 = hasNonWs (textValuesList ns)
  | [] => by simp [replaceFirstList, textValuesList, replaceFirstNonWsValue, hasNonWs]
  | n :: ns => by
      have hn := replaceFirstNode_false t n
      by_cases hflag : hasNonWs (textValues n)
      · have hdone : (replaceFirstNode t n false).2 = true := by rw [hn.2, hflag]
        simp only [replaceFirstList, textValuesList, hdone, replaceFirstList_done t ns]
        rw [replaceFirstNonWsValue_append t (textValues n) (textValuesList ns),
          if_pos hflag]
        refine ⟨by rw [hn.1], ?_⟩
        rw [hasNonWs_append, hflag, Bool.true_or]
      · rw [Bool.not_eq_true] at hflag
        have hdone : (replaceFirstNode t n false).2 = false := by rw [hn.2, hflag]
        have hns := replaceFirstList_false t ns
        simp only [replaceFirstList, textValuesList, hdone]
        rw [replaceFirstNonWsValue_append t (textValues n) (textValuesList ns),
          if_neg (by rw [hflag]; exact fun h => by cases h)]
        constructor
        · rw [hns.1, hn.1, replaceFirstNonWsValue_of_ws t _ hflag]
        · rw [hns.2, hasNonWs_append, hflag, Bool.false_or]

end

mutual

theorem shapeNode_replaceFirst (t : String) :
    (n : HtmlNode) → ∀ d : Bool, shapeNode ((replaceFirstNode t n d).1) = shapeNode n
  | .text value => by
      intro d
      by_cases hc : (!d && !(jsTrim value).isEmpty) = true <;>
        simp [replaceFirstNode, hc, shapeNode]
  | .elem tag children => by
      intro d
      simp [replaceFirstNode, shapeNode, shapeList_replaceFirst t children d]

theorem shapeList_replaceFirst (t : String) :
    (ns : List HtmlNode) → ∀ d : Bool, shapeList ((replaceFirstList t ns d).1) = shapeList ns
  | [] => by intro d; rfl
  | n :: ns => by
      intro d
      simp [replaceFirstList, shapeList, shapeNode_replaceFirst t n d,
        shapeList_replaceFirst t ns _]

end

/-- **C5**: when the fragment parsed from `originalMarkup` holds zero or two
or more non-whitespace text nodes, `restoreHTML` returns it untouched (so
the re-serialized markup is byte-for-byte the serialization of the original
fragment); when exactly one such node exists, the output has the same
element structure and its text-node values are the original values with the
unique non-whitespace one replaced by `translatedText` verbatim. -/
theorem restoreHTML_spec (fragment : List HtmlNode) (translatedText : String) :
    (countNonWs fragment ≠ 1 →
        restoreHTML fragment translatedText = fragment ∧
        serializeList (restoreHTML fragment translatedText) = serializeList fragment) ∧
    (countNonWs fragment = 1 →
        textValuesList (restoreHTML fragment translatedText) =
          replaceFirstNonWsValue translatedText (textValuesList fragment) ∧
        shapeList (restoreHTML fragment translatedText) = shapeList fragment) := by
  constructor
  · intro hne
    have h : restoreHTML fragment translatedText = fragment := by
      rw [restoreHTML, if_neg hne]
    exact ⟨h, by rw [h]⟩
  · intro hone
    have h : restoreHTML fragment translatedText =
        (replaceFirstList translatedText fragment false).1 := by
      rw [restoreHTML, if_pos hone]
    rw [h]
    exact ⟨(replaceFirstList_false translatedText fragment).1,
      shapeList_replaceFirst translatedText fragment false⟩

/-- Witness for `restoreHTML_spec`: the spec's end-to-end fragment
`<p>Soft cotton</p>` has exactly one non-whitespace text node, which is
replaced verbatim; and a two-text-node fragment is returned untouched. -/
theorem restoreHTML_spec_witness :
    (textValuesList (restoreHTML [HtmlNode.elem "p" [HtmlNode.text "Soft cotton"]] "X") =
        replaceFirstNonWsValue "X"
          (textValuesList [HtmlNode.elem "p" [HtmlNode.text "Soft cotton"]]) ∧
      shapeList (restoreHTML [HtmlNode.elem "p" [HtmlNode.text "Soft cotton"]] "X") =
        shapeList [HtmlNode.elem "p" [HtmlNode.text "Soft cotton"]]) ∧
    restoreHTML [HtmlNode.text "a", HtmlNode.text "b"] "X" =
      [HtmlNode.text "a", HtmlNode.text "b"] :=
  ⟨(restoreHTML_spec [HtmlNode.elem "p" [HtmlNode.text "Soft cotton"]] "X").2 (by decide),
   ((restoreHTML_spec [HtmlNode.text "a", HtmlNode.text "b"] "X").1 (by decide)).1⟩
